import Mathlib

/-!
Verification of `analyze-vault.py`, a tool that scans a directory of
markdown notes for files whose entire content is a single bare URL,
optionally filters them by a content substring, and optionally moves
them into a target directory.

The Python source is shallowly embedded:
* `is_naked_url` (source lines 24-34) becomes a pure `String → Bool`
  function; Python's `content.split('\n')` is `splitNL` on the character
  list, `str.strip()` is `pyStripL` with the ASCII whitespace set, and
  the regex `^https?://\S+$` is `urlMatchL`.
* the two tree scanners (lines 36-78) are modelled over an explicit
  directory listing: a list of `(path, content)` pairs standing for the
  readable `*.md` files discovered by `rglob`.
* `move_files` (lines 80-111) becomes a fold over an explicit
  filesystem state `FS` (a set of file paths and a set of directory
  paths, paths being component lists).
* the `main` orchestrator (lines 113-152) is `mainRun`; the reference
  to the unbound name `naked_urls` on line 135 is modelled as the
  `NameError` Python raises there.
-/

namespace Vault

/-- ASCII whitespace, the characters Python's `str.strip()` removes and
the regex class `\s` contains (restricted to ASCII, which is all the
development uses). -/
def pyIsSpace (c : Char) : Bool :=
  c = ' ' || c = '\t' || c = '\n' || c = '\x0b' || c = '\x0c' || c = '\r'

/-- Python `content.split('\n')` on the character list: split at every
newline, keeping empty segments (so `"".split` is `[""]`). -/
def splitNL : List Char → List (List Char)
  | [] => [[]]
  | c :: rest =>
    let r := splitNL rest
    if c = '\n' then [] :: r
    else
      match r with
      | h :: t => (c :: h) :: t
      | [] => [[c]]

/-- Python `l.strip()`: remove leading and trailing whitespace. -/
def pyStripL (l : List Char) : List Char :=
  ((l.dropWhile pyIsSpace).reverse.dropWhile pyIsSpace).reverse

/-- `p.isPrefixOf l` written out recursively, to keep proofs
self-contained. -/
def startsWithList : List Char → List Char → Bool
  | [], _ => true
  | _ :: _, [] => false
  | a :: as, b :: bs => a = b && startsWithList as bs

/-- The `\S+$` part of the regex: the remaining characters are non-empty
and contain no whitespace. -/
def urlTail (r : List Char) : Bool :=
  !r.isEmpty && r.all (fun c => !pyIsSpace c)

/-- The regex `^https?://\S+$` from line 31 of the source, as a matcher
on the line's characters. -/
def urlMatchL (l : List Char) : Bool :=
  (startsWithList "http://".data l && urlTail (l.drop 7)) ||
  (startsWithList "https://".data l && urlTail (l.drop 8))

/-- Lines 27-28 of the source: split on newlines, strip each line, keep
the non-empty ones. -/
def strippedLines (content : String) : List (List Char) :=
  ((splitNL content.data).map pyStripL).filter (fun l => l ≠ [])

/-- `is_naked_url` (source lines 24-34): true iff after stripping
exactly one non-empty line remains and it matches `^https?://\S+$`. -/
def is_naked_url (content : String) : Bool :=
  let lines := strippedLines content
  if lines.length ≠ 1 then false
  else urlMatchL lines.headI

/-- The classifier as the spec words it (§4.2): after splitting into
lines, stripping whitespace and discarding empty lines, exactly one
line remains, and that line is `http://` or `https://` followed by one
or more non-whitespace characters, anchored start to end. -/
def specIsNakedUrl (c : String) : Prop :=
  ∃ l, strippedLines c = [l] ∧
    ∃ rest, (l = "http://".data ++ rest ∨ l = "https://".data ++ rest) ∧
      rest ≠ [] ∧ ∀ ch ∈ rest, pyIsSpace ch = false

theorem startsWithList_iff (p l : List Char) :
    startsWithList p l = true ↔ ∃ t, l = p ++ t := by
  induction p generalizing l with
  | nil => simp [startsWithList]
  | cons a as ih =>
    cases l with
    | nil =>
      simp [startsWithList]
    | cons b bs =>
      simp only [startsWithList, Bool.and_eq_true, decide_eq_true_eq, ih,
        List.cons_append, List.cons.injEq]
      constructor
      · rintro ⟨rfl, t, rfl⟩; exact ⟨t, rfl, rfl⟩
      · rintro ⟨t, rfl, rfl⟩; exact ⟨rfl, t, rfl⟩

theorem drop_length_append (p t : List Char) : (p ++ t).drop p.length = t := by
  induction p with
  | nil => rfl
  | cons a as ih => simp [ih]

theorem urlTail_iff (r : List Char) :
    urlTail r = true ↔ r ≠ [] ∧ ∀ ch ∈ r, pyIsSpace ch = false := by
  simp [urlTail, List.all_eq_true, List.isEmpty_iff]

theorem urlMatchL_iff (l : List Char) :
    urlMatchL l = true ↔
      ∃ rest, (l = "http://".data ++ rest ∨ l = "https://".data ++ rest) ∧
        rest ≠ [] ∧ ∀ ch ∈ rest, pyIsSpace ch = false := by
  have h7 : ("http://".data).length = 7 := by decide
  have h8 : ("https://".data).length = 8 := by decide
  simp only [urlMatchL, Bool.or_eq_true, Bool.and_eq_true, startsWithList_iff]
  constructor
  · rintro (⟨⟨t, rfl⟩, htail⟩ | ⟨⟨t, rfl⟩, htail⟩)
    · rw [← h7, drop_length_append] at htail
      exact ⟨t, Or.inl rfl, (urlTail_iff t).mp htail⟩
    · rw [← h8, drop_length_append] at htail
      exact ⟨t, Or.inr rfl, (urlTail_iff t).mp htail⟩
  · rintro ⟨rest, rfl | rfl, hne, hall⟩
    · refine Or.inl ⟨⟨rest, rfl⟩, ?_⟩
      rw [← h7, drop_length_append]
      exact (urlTail_iff rest).mpr ⟨hne, hall⟩
    · refine Or.inr ⟨⟨rest, rfl⟩, ?_⟩
      rw [← h8, drop_length_append]
      exact (urlTail_iff rest).mpr ⟨hne, hall⟩

/-- C2: the naked-URL classifier returns true exactly when, after
splitting into lines, stripping whitespace and discarding empty lines,
one line remains and it matches `^https?://\S+$`; in particular
whitespace-only content is rejected, a sole line
`https://example.com/path` is accepted (also with a trailing blank
line), and any second non-blank line is rejected. -/
theorem is_naked_url_spec :
    (∀ c : String, is_naked_url c = true ↔ specIsNakedUrl c) ∧
    is_naked_url "https://example.com/path" = true ∧
    is_naked_url "https://example.com/path\n" = true ∧
    is_naked_url "https://example.com/path\nnotes" = false ∧
    is_naked_url "  \n\t \n " = false := by
  refine ⟨?_, by decide, by decide, by decide, by decide⟩
  intro c
  unfold is_naked_url specIsNakedUrl
  cases hL : strippedLines c with
  | nil => simp
  | cons l t =>
    cases t with
    | nil =>
      simp only [List.length_singleton, List.headI]
      simpa using urlMatchL_iff l
    | cons l2 t2 =>
      simp

/-! ## Tree scanners and the orchestrator

The scanners (`find_naked_urls`, lines 36-56, and
`find_files_with_string`, lines 58-78) walk the directory with
`rglob('*.md')`, skip unreadable files and apply their predicate to the
content of each readable file. The directory walk and the I/O are
abstracted: a directory is the list of `(path, content)` pairs of the
readable `*.md` files the walk yields, and each scanner keeps the paths
whose content satisfies its predicate. -/

/-- One readable markdown file discovered by the walk: its path (as the
string `str(file_path)`) and its full text content. -/
abbrev DirListing := List (String × String)

/-- A needle occurs as a contiguous segment of the haystack, checked at
every suffix. -/
def hasSegment (needle : List Char) : List Char → Bool
  | [] => startsWithList needle []
  | c :: rest => startsWithList needle (c :: rest) || hasSegment needle rest

/-- Python's substring test `search_string in content` (line 71). -/
def containsStr (content s : String) : Bool :=
  hasSegment s.data content.data

/-- `find_naked_urls` (lines 36-56) over a directory listing: the paths
whose content classifies as a naked URL. -/
def find_naked_urls (d : DirListing) : List String :=
  (d.filter (fun e => is_naked_url e.2)).map Prod.fst

/-- `find_files_with_string` (lines 58-78) over a directory listing:
the paths whose content contains the search string. -/
def find_files_with_string (d : DirListing) (s : String) : List String :=
  (d.filter (fun e => containsStr e.2 s)).map Prod.fst

/-- The working set computed on line 127:
`list(set(files) & set(filtered_files))`. Set intersection is modelled
by `List.inter` (membership-equivalent; the spec treats match sets as
unordered). -/
def workingSet (d : DirListing) (filterOpt : Option String) : List String :=
  let files := find_naked_urls d
  match filterOpt with
  | some s => files ∩ find_files_with_string d s
  | none => files

/-- The exceptions `main` can hit in the modelled branch. `naked_urls`
on line 135 is not a name bound in `main` (it is local to
`find_naked_urls`), so evaluating the call
`move_files(naked_urls, args.move)` raises `NameError` before the
relocator is entered. -/
inductive PyExc where
  | nameError (name : String)
  deriving DecidableEq, Repr

/-- The `--find-naked-urls` branch of `main` (lines 122-145): compute
the working set; if it is empty report no matches (`.ok []`); otherwise
print it and, when a move target was given, evaluate
`move_files(naked_urls, args.move)` — which raises `NameError` because
`naked_urls` is unbound. On success the returned list is the set of
paths printed as matching files. -/
def mainRun (d : DirListing) (filterOpt : Option String)
    (moveOpt : Option String) : Except PyExc (List String) :=
  let files := workingSet d filterOpt
  if files.isEmpty then .ok []
  else
    match moveOpt with
    | some _ => .error (.nameError "naked_urls")
    | none => .ok files

/-- C1: refuted by the code — on any run combining `--find-naked-urls`,
`--filter` and `--move` with a non-empty working set, line 135
references the unbound name `naked_urls`, so the run dies with
`NameError` (exit 1) and the relocator is never invoked on any set at
all. Here the vault holds one naked-URL note matching the filter, a
move target is supplied, and the orchestrator returns the `NameError`
instead of moving the working set. -/
theorem mainRun_move_branch_nameError :
    mainRun [("vault/note.md", "https://example.com/x")]
        (some "example") (some "moved") = .error (.nameError "naked_urls") ∧
    workingSet [("vault/note.md", "https://example.com/x")] (some "example")
        = ["vault/note.md"] := by
  exact ⟨by rfl, by decide⟩

theorem mem_find_naked_urls {d : DirListing} {p : String} :
    p ∈ find_naked_urls d ↔ ∃ e ∈ d, e.1 = p ∧ is_naked_url e.2 = true := by
  simp only [find_naked_urls, List.mem_map, List.mem_filter]
  constructor
  · rintro ⟨e, ⟨he, hn⟩, rfl⟩; exact ⟨e, he, rfl, hn⟩
  · rintro ⟨e, he, rfl, hn⟩; exact ⟨e, ⟨he, hn⟩, rfl⟩

theorem mem_find_files_with_string {d : DirListing} {s p : String} :
    p ∈ find_files_with_string d s ↔
      ∃ e ∈ d, e.1 = p ∧ containsStr e.2 s = true := by
  simp only [find_files_with_string, List.mem_map, List.mem_filter]
  constructor
  · rintro ⟨e, ⟨he, hn⟩, rfl⟩; exact ⟨e, he, rfl, hn⟩
  · rintro ⟨e, he, rfl, hn⟩; exact ⟨e, ⟨he, hn⟩, rfl⟩

/-- C7: with `A` the naked-URL match set and `B` the filter match set
over the same directory listing, a filter string contained in none of
the matched files empties the working set, one contained in all of
them leaves it at `A`, and intersecting with `B` twice is the same as
once: `A ∩ B ∩ B = A ∩ B`. -/
theorem working_set_filter_algebra (d : DirListing) (s : String) :
    ((∀ e ∈ d, e.1 ∈ find_naked_urls d → containsStr e.2 s = false) →
      find_naked_urls d ∩ find_files_with_string d s = []) ∧
    ((∀ e ∈ d, e.1 ∈ find_naked_urls d → containsStr e.2 s = true) →
      find_naked_urls d ∩ find_files_with_string d s = find_naked_urls d) ∧
    (find_naked_urls d ∩ find_files_with_string d s ∩ find_files_with_string d s
      = find_naked_urls d ∩ find_files_with_string d s) := by
  refine ⟨?_, ?_, List.Subset.inter_eq_left List.inter_subset_right⟩
  · intro hnone
    refine List.inter_eq_nil_iff_disjoint.mpr ?_
    intro p hpA hpB
    obtain ⟨e, he, rfl, hc⟩ := mem_find_files_with_string.mp hpB
    exact absurd hc (by simp [hnone e he hpA])
  · intro hall
    refine List.Subset.inter_eq_left ?_
    intro p hpA
    obtain ⟨e, he, rfl, hn⟩ := mem_find_naked_urls.mp hpA
    exact mem_find_files_with_string.mpr ⟨e, he, rfl, hall e he hpA⟩

/-- Instantiation of `working_set_filter_algebra`: a two-note vault,
one naked-URL note; the string "zzz" occurs in neither matched file and
empties the set, while "http" occurs in the matched file and keeps the
set intact. -/
theorem working_set_filter_algebra_witness :
    (find_naked_urls [("a.md", "https://x.io/1"), ("b.md", "notes")]
        ∩ find_files_with_string [("a.md", "https://x.io/1"), ("b.md", "notes")] "zzz"
      = []) ∧
    (find_naked_urls [("a.md", "https://x.io/1"), ("b.md", "notes")]
        ∩ find_files_with_string [("a.md", "https://x.io/1"), ("b.md", "notes")] "http"
      = find_naked_urls [("a.md", "https://x.io/1"), ("b.md", "notes")]) := by
  refine ⟨(working_set_filter_algebra
      [("a.md", "https://x.io/1"), ("b.md", "notes")] "zzz").1 ?_,
    (working_set_filter_algebra
      [("a.md", "https://x.io/1"), ("b.md", "notes")] "http").2.1 ?_⟩
  · decide
  · decide

/-! ## The file relocator `move_files` (lines 80-111)

The filesystem is an explicit state: the set of existing file paths and
the set of existing directory paths, a path being its list of
components. `Path.exists()` is membership in either set,
`Path.mkdir(parents=True, exist_ok=True)` adds the path and all its
ancestors to the directory set, and `Path.rename` removes the source
from the file set and adds the destination. -/

/-- A filesystem path, as its list of components. -/
abbrev FPath := List String

/-- Python `src.name`: the final path component. -/
def baseName (p : FPath) : String := p.getLastD ""

/-- Explicit filesystem state: the existing files and directories. -/
structure FS where
  files : List FPath
  dirs : List FPath
  deriving DecidableEq, Repr

/-- `Path.exists()`: the path is an existing file or directory. -/
def fsExists (fs : FS) (p : FPath) : Bool := p ∈ fs.files || p ∈ fs.dirs

/-- `Path.is_dir()`. -/
def fsIsDir (fs : FS) (p : FPath) : Bool := p ∈ fs.dirs

/-- All ancestors of a path, itself included: its component-list
initial segments. -/
def ancestors (p : FPath) : List FPath :=
  (List.range (p.length + 1)).map (fun i => p.take i)

/-- `target_path.mkdir(parents=True, exist_ok=True)` (line 88): the
target and all its ancestors become directories; nothing else changes. -/
def mkdirParents (fs : FS) (p : FPath) : FS :=
  { fs with dirs := fs.dirs ++ ancestors p }

/-- `src.rename(dest)` (line 103): the source file disappears, the
destination file appears. -/
def renameFile (fs : FS) (src dest : FPath) : FS :=
  { fs with files := dest :: fs.files.erase src }

/-- Why one file of the batch failed, taken from the message of the
exception raised for it (lines 97 and 101). -/
inductive MoveFail where
  | sourceMissing
  | destinationConflict
  deriving DecidableEq, Repr

/-- Whole-operation failure: the target exists but is not a directory
(line 86). -/
inductive MoveErr where
  | invalidTarget
  deriving DecidableEq, Repr

/-- One iteration of the loop on lines 93-107 over the accumulated
state `(filesystem, successful, failed)`: fail the file with
`SourceMissing` if its source no longer exists, with
`DestinationConflict` if the target directory already holds an entry of
the same base name, and otherwise rename it into the target. -/
def moveStep (target : FPath) (st : FS × List FPath × List (FPath × MoveFail))
    (file : FPath) : FS × List FPath × List (FPath × MoveFail) :=
  let (fs, succ, fail) := st
  if fsExists fs file = false then
    (fs, succ, fail ++ [(file, .sourceMissing)])
  else
    let dest := target ++ [baseName file]
    if fsExists fs dest = true then
      (fs, succ, fail ++ [(file, .destinationConflict)])
    else
      (renameFile fs file dest, succ ++ [file], fail)

/-- The loop of `move_files` after target validation and directory
creation: fold `moveStep` over the requested files starting from empty
result lists. -/
def moveLoop (fs : FS) (files : List FPath) (target : FPath) :
    FS × List FPath × List (FPath × MoveFail) :=
  files.foldl (moveStep target) (mkdirParents fs target, [], [])

/-- `move_files` (lines 80-111): if the target exists and is not a
directory the whole operation fails with `InvalidTarget` before
touching anything; otherwise create the target directory (with missing
parents) and process each file in isolation, returning the successful
and failed lists. -/
def move_files (fs : FS) (files : List FPath) (target : FPath) :
    FS × Except MoveErr (List FPath × List (FPath × MoveFail)) :=
  if fsExists fs target = true ∧ fsIsDir fs target = false then
    (fs, .error .invalidTarget)
  else
    let r := moveLoop fs files target
    (r.1, .ok r.2)

theorem moveStep_missing {fs : FS} {f : FPath} (target : FPath)
    (succ : List FPath) (fail : List (FPath × MoveFail))
    (h1 : fsExists fs f = false) :
    moveStep target (fs, succ, fail) f = (fs, succ, fail ++ [(f, .sourceMissing)]) := by
  simp [moveStep, h1]

theorem moveStep_conflict {fs : FS} {f : FPath} {target : FPath}
    (succ : List FPath) (fail : List (FPath × MoveFail))
    (h1 : fsExists fs f = true)
    (h2 : fsExists fs (target ++ [baseName f]) = true) :
    moveStep target (fs, succ, fail) f
      = (fs, succ, fail ++ [(f, .destinationConflict)]) := by
  simp [moveStep, h1, h2]

theorem moveStep_ok {fs : FS} {f : FPath} {target : FPath}
    (succ : List FPath) (fail : List (FPath × MoveFail))
    (h1 : fsExists fs f = true)
    (h2 : fsExists fs (target ++ [baseName f]) = false) :
    moveStep target (fs, succ, fail) f
      = (renameFile fs f (target ++ [baseName f]), succ ++ [f], fail) := by
  simp [moveStep, h1, h2]

theorem self_mem_ancestors (p : FPath) : p ∈ ancestors p := by
  refine List.mem_map.mpr ⟨p.length, ?_, by simp⟩
  exact List.mem_range.mpr (Nat.lt_succ_self _)

theorem length_le_of_mem_ancestors {q p : FPath} (h : q ∈ ancestors p) :
    q.length ≤ p.length := by
  obtain ⟨i, _, rfl⟩ := List.mem_map.mp h
  simp [List.length_take]

/-- C4: when the target path exists and is not a directory, the whole
operation fails with `InvalidTarget` and the filesystem is returned
untouched — the check on lines 85-86 raises before `mkdir` and before
any file is processed. -/
theorem move_files_invalid_target (fs : FS) (files : List FPath) (target : FPath)
    (h1 : fsExists fs target = true) (h2 : fsIsDir fs target = false) :
    move_files fs files target = (fs, .error .invalidTarget) := by
  simp [move_files, h1, h2]

/-- Instantiation of `move_files_invalid_target`: the target `t` exists
as a file, so moving `n/a.md` fails with `InvalidTarget` and the state
is unchanged. -/
theorem move_files_invalid_target_witness :
    move_files ⟨[["t"], ["n", "a.md"]], [[], ["n"]]⟩ [["n", "a.md"]] ["t"]
      = (⟨[["t"], ["n", "a.md"]], [[], ["n"]]⟩, .error .invalidTarget) :=
  move_files_invalid_target _ _ _ (by decide) (by decide)

/-- C10: the source-existence check (line 96) runs before the
destination-conflict check (line 100): a file whose source is gone is
reported `SourceMissing` even when a same-named entry already sits in
the target directory. -/
theorem moveStep_source_check_first (fs : FS) (succ : List FPath)
    (fail : List (FPath × MoveFail)) (f target : FPath)
    (h1 : fsExists fs f = false)
    (_h2 : fsExists fs (target ++ [baseName f]) = true) :
    moveStep target (fs, succ, fail) f
      = (fs, succ, fail ++ [(f, .sourceMissing)]) :=
  moveStep_missing target succ fail h1

/-- Instantiation of `moveStep_source_check_first`: `v/a.md` is gone
while `t/a.md` exists, and the failure reason is `SourceMissing`. -/
theorem moveStep_source_check_first_witness :
    moveStep ["t"] (⟨[["t", "a.md"]], [[], ["t"]]⟩, [], []) ["v", "a.md"]
      = (⟨[["t", "a.md"]], [[], ["t"]]⟩, [],
          [(["v", "a.md"], .sourceMissing)]) :=
  moveStep_source_check_first _ _ _ _ _ (by decide) (by decide)

/-- C5: when the target directory already holds an entry with the
file's base name, that single file fails with `DestinationConflict`:
the filesystem is passed on unchanged (nothing is overwritten, the
source stays at its path), the file is appended to the failed list, and
the rest of the batch is processed from the very same state. -/
theorem moveStep_destination_conflict (fs : FS) (succ : List FPath)
    (fail : List (FPath × MoveFail)) (f target : FPath) (l2 : List FPath)
    (h1 : fsExists fs f = true)
    (h2 : fsExists fs (target ++ [baseName f]) = true) :
    moveStep target (fs, succ, fail) f
      = (fs, succ, fail ++ [(f, .destinationConflict)]) ∧
    (f :: l2).foldl (moveStep target) (fs, succ, fail)
      = l2.foldl (moveStep target) (fs, succ, fail ++ [(f, .destinationConflict)]) := by
  have h := moveStep_conflict succ fail h1 h2
  exact ⟨h, by rw [List.foldl_cons, h]⟩

/-- Instantiation of `moveStep_destination_conflict`: `v/a.md` exists
and so does `t/a.md`; the move of `v/a.md` fails with
`DestinationConflict` and the state is unchanged. -/
theorem moveStep_destination_conflict_witness :
    moveStep ["t"] (⟨[["v", "a.md"], ["t", "a.md"]], [[], ["v"], ["t"]]⟩, [], [])
        ["v", "a.md"]
      = (⟨[["v", "a.md"], ["t", "a.md"]], [[], ["v"], ["t"]]⟩, [],
          [(["v", "a.md"], .destinationConflict)]) :=
  (moveStep_destination_conflict _ _ _ _ _ [] (by decide) (by decide)).1

/-- C9: called with an empty batch and a valid target, the relocator
still creates the target directory and its missing parents (line 88
runs before the loop), and returns two empty lists. -/
theorem move_files_empty_batch (fs : FS) (target : FPath)
    (h : ¬(fsExists fs target = true ∧ fsIsDir fs target = false)) :
    (move_files fs [] target).2 = .ok ([], []) ∧
    (move_files fs [] target).1 = mkdirParents fs target ∧
    target ∈ (move_files fs [] target).1.dirs ∧
    ∀ q ∈ ancestors target, q ∈ (move_files fs [] target).1.dirs := by
  have hmf : move_files fs [] target = (mkdirParents fs target, .ok ([], [])) := by
    simp [move_files, if_neg h, moveLoop]
  rw [hmf]
  refine ⟨rfl, rfl, ?_, ?_⟩
  · exact List.mem_append_right _ (self_mem_ancestors target)
  · intro q hq
    exact List.mem_append_right _ hq

/-- Instantiation of `move_files_empty_batch`: an empty filesystem with
only the root, an empty batch and the two-level target `a/b`: the run
returns `([], [])` and both `a` and `a/b` now exist as directories. -/
theorem move_files_empty_batch_witness :
    (move_files ⟨[], [[]]⟩ [] ["a", "b"]).2 = .ok ([], []) ∧
    ["a", "b"] ∈ (move_files ⟨[], [[]]⟩ [] ["a", "b"]).1.dirs ∧
    ["a"] ∈ (move_files ⟨[], [[]]⟩ [] ["a", "b"]).1.dirs := by
  have h := move_files_empty_batch ⟨[], [[]]⟩ ["a", "b"] (by decide)
  exact ⟨h.1, h.2.2.1, h.2.2.2 ["a"] (by decide)⟩

/-- The successful and failed paths produced by the loop, taken
together, are a permutation of the initial accumulators plus the files
still to process: each iteration routes its file to exactly one of the
two lists. -/
theorem moveFoldl_perm (target : FPath) (l : List FPath) :
    ∀ (fs : FS) (succ : List FPath) (fail : List (FPath × MoveFail)),
      ((l.foldl (moveStep target) (fs, succ, fail)).2.1
        ++ (l.foldl (moveStep target) (fs, succ, fail)).2.2.map Prod.fst).Perm
      (succ ++ fail.map Prod.fst ++ l) := by
  induction l with
  | nil => intro fs succ fail; simp
  | cons f t ih =>
    intro fs succ fail
    rw [List.foldl_cons]
    cases h1 : fsExists fs f with
    | false =>
      rw [moveStep_missing target succ fail h1]
      have := ih fs succ (fail ++ [(f, .sourceMissing)])
      simpa [List.append_assoc] using this
    | true =>
      cases h2 : fsExists fs (target ++ [baseName f]) with
      | true =>
        rw [moveStep_conflict succ fail h1 h2]
        have := ih fs succ (fail ++ [(f, .destinationConflict)])
        simpa [List.append_assoc] using this
      | false =>
        rw [moveStep_ok succ fail h1 h2]
        refine (ih _ (succ ++ [f]) fail).trans ?_
        simp only [List.append_assoc, List.singleton_append]
        refine List.Perm.append_left succ ?_
        exact List.perm_middle.symm

/-- When two lists partition a duplicate-free list up to permutation,
every element of the list lands in exactly one of the two. -/
theorem mem_exactly_one_of_append_perm {α : Type} {l₁ l₂ l : List α}
    (hp : (l₁ ++ l₂).Perm l) (hn : l.Nodup) {p : α} (hm : p ∈ l) :
    (p ∈ l₁ ∧ p ∉ l₂) ∨ (p ∉ l₁ ∧ p ∈ l₂) := by
  have hn' : (l₁ ++ l₂).Nodup := hp.symm.nodup hn
  obtain ⟨-, -, hdisj⟩ := List.nodup_append.mp hn'
  rcases List.mem_append.mp (hp.mem_iff.mpr hm) with h | h
  · exact Or.inl ⟨h, fun hc => hdisj h hc⟩
  · exact Or.inr ⟨fun hc => hdisj hc h, h⟩

/-- C3: with a valid target, the relocator processes every file of the
batch — the successful and failed lists together are a permutation of
the request, and for a duplicate-free request every path lands in
exactly one of the two lists — and a file whose source no longer
exists when its turn comes is appended to the failed list with
`SourceMissing` while the remaining files are processed from the
unchanged state. -/
theorem move_files_partition (fs : FS) (files : List FPath) (target : FPath)
    (h : ¬(fsExists fs target = true ∧ fsIsDir fs target = false))
    (hnd : files.Nodup) :
    (move_files fs files target).2
      = .ok ((moveLoop fs files target).2.1, (moveLoop fs files target).2.2) ∧
    ((moveLoop fs files target).2.1
      ++ (moveLoop fs files target).2.2.map Prod.fst).Perm files ∧
    (∀ p ∈ files,
      (p ∈ (moveLoop fs files target).2.1 ∧
        p ∉ (moveLoop fs files target).2.2.map Prod.fst) ∨
      (p ∉ (moveLoop fs files target).2.1 ∧
        p ∈ (moveLoop fs files target).2.2.map Prod.fst)) ∧
    (∀ (fs1 : FS) (succ : List FPath) (fail : List (FPath × MoveFail))
        (f : FPath) (l2 : List FPath), fsExists fs1 f = false →
      (f :: l2).foldl (moveStep target) (fs1, succ, fail)
        = l2.foldl (moveStep target) (fs1, succ, fail ++ [(f, MoveFail.sourceMissing)])) := by
  have hperm : ((moveLoop fs files target).2.1
      ++ (moveLoop fs files target).2.2.map Prod.fst).Perm files := by
    simpa [moveLoop] using
      moveFoldl_perm target files (mkdirParents fs target) [] []
  refine ⟨?_, hperm, ?_, ?_⟩
  · simp [move_files, if_neg h, moveLoop]
  · intro p hp
    exact mem_exactly_one_of_append_perm hperm hnd hp
  · intro fs1 succ fail f l2 h1
    rw [List.foldl_cons, moveStep_missing target succ fail h1]

/-- Instantiation of `move_files_partition`: a batch of two files,
`v/a.md` existing and `v/gone.md` deleted between scan and move; the
successful and failed lists together are a permutation of the batch. -/
theorem move_files_partition_witness :
    ((moveLoop ⟨[["v", "a.md"]], [[], ["v"]]⟩
        [["v", "a.md"], ["v", "gone.md"]] ["t"]).2.1
      ++ (moveLoop ⟨[["v", "a.md"]], [[], ["v"]]⟩
        [["v", "a.md"], ["v", "gone.md"]] ["t"]).2.2.map Prod.fst).Perm
      [["v", "a.md"], ["v", "gone.md"]] :=
  (move_files_partition ⟨[["v", "a.md"]], [[], ["v"]]⟩
    [["v", "a.md"], ["v", "gone.md"]] ["t"] (by decide) (by decide)).2.1

theorem baseName_concat (p : FPath) (b : String) : baseName (p ++ [b]) = b :=
  List.getLastD_concat _ _ _

/-- A filesystem state is parent-closed when the parent of every
existing entry is an existing directory — the invariant a real
filesystem maintains. It is what makes a path below a non-existent
directory non-existent itself. -/
def parentClosed (fs : FS) : Prop :=
  (∀ p ∈ fs.files, p.dropLast ∈ fs.dirs) ∧
  (∀ p ∈ fs.dirs, p ≠ [] → p.dropLast ∈ fs.dirs)

/-- The loop of `move_files` when every file of the batch exists, no
destination exists, and base names are pairwise distinct: every file
succeeds, nothing fails, the directories are untouched, files not in
the batch survive, and every destination exists afterwards. -/
theorem moveLoop_all_success (target : FPath) (l : List FPath) :
    ∀ (fs : FS) (succ : List FPath) (fail : List (FPath × MoveFail)),
      (∀ f ∈ l, f ∈ fs.files) →
      (∀ f ∈ l, (target ++ [baseName f]) ∉ fs.files ∧
        (target ++ [baseName f]) ∉ fs.dirs) →
      (l.map baseName).Nodup →
      (l.foldl (moveStep target) (fs, succ, fail)).2.1 = succ ++ l ∧
      (l.foldl (moveStep target) (fs, succ, fail)).2.2 = fail ∧
      (l.foldl (moveStep target) (fs, succ, fail)).1.dirs = fs.dirs ∧
      (∀ q ∈ fs.files, q ∉ l →
        q ∈ (l.foldl (moveStep target) (fs, succ, fail)).1.files) ∧
      (∀ f ∈ l, (target ++ [baseName f]) ∈
        (l.foldl (moveStep target) (fs, succ, fail)).1.files) := by
  induction l with
  | nil =>
    intro fs succ fail _ _ _
    simp
  | cons f t ih =>
    intro fs succ fail hsrc hdst hnd
    have hf : f ∈ fs.files := hsrc f (List.mem_cons_self f t)
    have hfex : fsExists fs f = true := by simp [fsExists, hf]
    have hdf := hdst f (List.mem_cons_self f t)
    have hdex : fsExists fs (target ++ [baseName f]) = false := by
      simp [fsExists, hdf.1, hdf.2]
    rw [List.foldl_cons, moveStep_ok succ fail hfex hdex]
    rw [List.map_cons, List.nodup_cons] at hnd
    obtain ⟨hbf, hndt⟩ := hnd
    have hft : ∀ g ∈ t, g ≠ f := by
      intro g hg hgf
      exact hbf (hgf ▸ List.mem_map_of_mem baseName hg)
    have hb : ∀ g ∈ t, baseName g ≠ baseName f := by
      intro g hg hgb
      exact hbf (hgb ▸ List.mem_map_of_mem baseName hg)
    have h1' : ∀ g ∈ t, g ∈ (renameFile fs f (target ++ [baseName f])).files := by
      intro g hg
      have hgfs : g ∈ fs.files := hsrc g (List.mem_cons_of_mem f hg)
      exact List.mem_cons_of_mem _ ((List.mem_erase_of_ne (hft g hg)).mpr hgfs)
    have h2' : ∀ g ∈ t,
        (target ++ [baseName g]) ∉ (renameFile fs f (target ++ [baseName f])).files ∧
        (target ++ [baseName g]) ∉ (renameFile fs f (target ++ [baseName f])).dirs := by
      intro g hg
      have hdg := hdst g (List.mem_cons_of_mem f hg)
      constructor
      · intro hc
        rcases List.mem_cons.mp hc with hc1 | hc2
        · have hx := List.append_cancel_left hc1
          simp only [List.cons.injEq, and_true] at hx
          exact hb g hg hx
        · exact hdg.1 (List.erase_subset f fs.files hc2)
      · intro hc
        exact hdg.2 hc
    obtain ⟨e1, e2, e3, e4, e5⟩ :=
      ih (renameFile fs f (target ++ [baseName f])) (succ ++ [f]) fail h1' h2' hndt
    refine ⟨?_, e2, ?_, ?_, ?_⟩
    · rw [e1]; simp
    · rw [e3]; rfl
    · intro q hq hql
      have hqf : q ≠ f := fun hc => hql (hc ▸ List.mem_cons_self f t)
      have hqt : q ∉ t := fun hc => hql (List.mem_cons_of_mem f hc)
      have hq2 : q ∈ (renameFile fs f (target ++ [baseName f])).files :=
        List.mem_cons_of_mem _ ((List.mem_erase_of_ne hqf).mpr hq)
      exact e4 q hq2 hqt
    · intro g hg
      rcases List.mem_cons.mp hg with rfl | hgt
      · have hdmem : (target ++ [baseName g]) ∈
            (renameFile fs g (target ++ [baseName g])).files :=
          List.mem_cons_self _ _
        have hdnot : (target ++ [baseName g]) ∉ t := by
          intro hc
          have hmem := List.mem_map_of_mem baseName hc
          rw [baseName_concat] at hmem
          exact hbf hmem
        exact e4 _ hdmem hdnot
      · exact e5 g hgt

/-- C6: for a batch of existing files with pairwise distinct base names
and a parent-closed filesystem in which the target does not yet exist,
the relocator creates the target directory and relocates every file:
the successful list is the whole batch, the failed list is empty, and
each file now sits in the target under its base name. -/
theorem move_files_fresh_target (fs : FS) (files : List FPath) (target : FPath)
    (hpc : parentClosed fs)
    (hne : fsExists fs target = false)
    (hsrc : ∀ f ∈ files, f ∈ fs.files)
    (hnd : (files.map baseName).Nodup) :
    (move_files fs files target).2 = .ok (files, []) ∧
    target ∈ (move_files fs files target).1.dirs ∧
    ∀ f ∈ files, (target ++ [baseName f]) ∈ (move_files fs files target).1.files := by
  have hne' : target ∉ fs.files ∧ target ∉ fs.dirs := by
    constructor <;> intro hc <;> simp [fsExists, hc] at hne
  have hcond : ¬(fsExists fs target = true ∧ fsIsDir fs target = false) := by
    intro hc
    rw [hne] at hc
    exact absurd hc.1 (by simp)
  have hmf : move_files fs files target
      = ((moveLoop fs files target).1, .ok ((moveLoop fs files target).2)) := by
    simp [move_files, if_neg hcond]
  have h1 : ∀ f ∈ files, f ∈ (mkdirParents fs target).files := fun f hf => hsrc f hf
  have h2 : ∀ f ∈ files,
      (target ++ [baseName f]) ∉ (mkdirParents fs target).files ∧
      (target ++ [baseName f]) ∉ (mkdirParents fs target).dirs := by
    intro f hf
    constructor
    · intro hc
      have hd := hpc.1 _ hc
      rw [List.dropLast_concat] at hd
      exact hne'.2 hd
    · intro hc
      rcases List.mem_append.mp hc with hc1 | hc2
      · have hnz : (target ++ [baseName f]) ≠ [] := by simp
        have hd := hpc.2 _ hc1 hnz
        rw [List.dropLast_concat] at hd
        exact hne'.2 hd
      · have hlen := length_le_of_mem_ancestors hc2
        simp at hlen
  obtain ⟨e1, e2, e3, e4, e5⟩ :=
    moveLoop_all_success target files (mkdirParents fs target) [] [] h1 h2 hnd
  refine ⟨?_, ?_, ?_⟩
  · rw [hmf]
    have hp : (moveLoop fs files target).2 = (files, []) := by
      simp only [moveLoop]
      rw [Prod.ext_iff]
      exact ⟨by rw [e1]; simp, e2⟩
    rw [hp]
  · rw [hmf]
    simp only [moveLoop]
    rw [e3]
    exact List.mem_append_right _ (self_mem_ancestors target)
  · intro f hf
    rw [hmf]
    simp only [moveLoop]
    exact e5 f hf

/-- Instantiation of `move_files_fresh_target`: two notes `v/a.md` and
`v/b.md` moved into the not-yet-existing directory `t`; both moves
succeed, `t` is created, and both files end up under `t`. -/
theorem move_files_fresh_target_witness :
    (move_files ⟨[["v", "a.md"], ["v", "b.md"]], [[], ["v"]]⟩
        [["v", "a.md"], ["v", "b.md"]] ["t"]).2
      = .ok ([["v", "a.md"], ["v", "b.md"]], []) ∧
    ["t"] ∈ (move_files ⟨[["v", "a.md"], ["v", "b.md"]], [[], ["v"]]⟩
        [["v", "a.md"], ["v", "b.md"]] ["t"]).1.dirs ∧
    ["t", "a.md"] ∈ (move_files ⟨[["v", "a.md"], ["v", "b.md"]], [[], ["v"]]⟩
        [["v", "a.md"], ["v", "b.md"]] ["t"]).1.files := by
  have h := move_files_fresh_target ⟨[["v", "a.md"], ["v", "b.md"]], [[], ["v"]]⟩
    [["v", "a.md"], ["v", "b.md"]] ["t"]
    (by constructor <;> decide) (by decide) (by decide) (by decide)
  exact ⟨h.1, h.2.1, h.2.2 ["v", "a.md"] (by decide)⟩

/-! ## The directory validator `validate_directory` (lines 13-22) -/

/-- The three filesystem queries `validate_directory` makes about its
path: `path.exists()` (line 16), `path.is_dir()` (line 18) and
`os.access(path, os.R_OK)` (line 20). The function only reads these —
it performs no filesystem mutation — so it is embedded as a pure
function of the three answers. -/
structure DirInfo where
  pathExists : Bool
  isDir : Bool
  readable : Bool
  deriving DecidableEq, Repr

/-- The reason carried by the `InvalidDirectory` error message. -/
inductive DirReason where
  | notFound
  | notADirectory
  | notReadable
  deriving DecidableEq, Repr

/-- `validate_directory` (lines 13-22): check existence, then
is-directory, then readability; raise with the reason of the first
violated check, and return the path when all three pass. -/
def validate_directory (directory : String) (info : DirInfo) :
    Except DirReason String :=
  if info.pathExists = false then .error .notFound
  else if info.isDir = false then .error .notADirectory
  else if info.readable = false then .error .notReadable
  else .ok directory

/-- C8: the validator succeeds with the path exactly when existence,
is-directory and readability all hold, and otherwise fails with the
reason of the first violated check, in the order existence,
is-directory, readability; being a pure function of the three queried
predicates, it has no filesystem side effect. -/
theorem validate_directory_spec (directory : String) (info : DirInfo) :
    (validate_directory directory info = .ok directory ↔
      info.pathExists = true ∧ info.isDir = true ∧ info.readable = true) ∧
    (info.pathExists = false →
      validate_directory directory info = .error .notFound) ∧
    (info.pathExists = true → info.isDir = false →
      validate_directory directory info = .error .notADirectory) ∧
    (info.pathExists = true → info.isDir = true → info.readable = false →
      validate_directory directory info = .error .notReadable) := by
  rcases info with ⟨e, d, r⟩
  cases e <;> cases d <;> cases r <;> simp [validate_directory]

/-- Instantiation of `validate_directory_spec`: a readable directory
validates to its own path; a missing one fails with the not-found
reason; a path that exists but is a file fails with the
not-a-directory reason. -/
theorem validate_directory_spec_witness :
    validate_directory "vault" ⟨true, true, true⟩ = .ok "vault" ∧
    validate_directory "vault" ⟨false, false, true⟩ = .error .notFound ∧
    validate_directory "vault" ⟨true, false, true⟩ = .error .notADirectory :=
  ⟨(validate_directory_spec "vault" ⟨true, true, true⟩).1.mpr
      ⟨rfl, rfl, rfl⟩,
    (validate_directory_spec "vault" ⟨false, false, true⟩).2.1 rfl,
    (validate_directory_spec "vault" ⟨true, false, true⟩).2.2.1 rfl rfl⟩

end Vault
